import Mathlib

/-!
Verification of the table-normalization pipeline of
`bank_statement_extractor_v1.py` (bank statement PDF table extractor).

Python strings are modelled as `List Char` (one entry per Unicode code
point, matching the Python str type); nullable values (`None` / `NaN` cells,
for which `pd.isna` is true) are modelled with `Option`.
-/

/-- A Python string: a sequence of Unicode code points. -/
abbrev PyStr := List Char

/-- A nullable table cell, as produced by the page extractor (`None` or text). -/
abbrev Cell := Option PyStr

/-- The character class kept by `re.sub(r"[^0-9.,\-]", "", s)` at line 32:
ASCII digits, the period, the comma, and the minus sign.  The regex range
`0-9` denotes exactly the code points U+0030..U+0039. -/
def isKept (c : Char) : Bool :=
  (('0' ≤ c) && (c ≤ '9')) || c == '.' || c == ',' || c == '-'

/-- The full-width ideographic comma U+FF0C used at line 34. -/
def fwComma : Char := '，'

/-- One character of `cleaned.replace("，", ",")` (line 34): a single-character
`str.replace` is a pointwise map. -/
def replFw (c : Char) : Char :=
  if c == fwComma then ',' else c

/-- Count of occurrences of the period character, modelling the count call at
line 36 (a single-character needle counts code points). -/
def countDot : PyStr → Nat
  | [] => 0
  | c :: cs => (if c == '.' then 1 else 0) + countDot cs

/-- Python split on the period character (line 37): every occurrence
separates, empty segments are kept, and the empty string yields one empty
segment, exactly as the Python split method with an explicit separator. -/
def splitDot : PyStr → List PyStr
  | [] => [[]]
  | c :: cs =>
    if c == '.' then [] :: splitDot cs
    else
      match splitDot cs with
      | [] => [[c]]
      | h :: t => (c :: h) :: t

/-- Rejoining step of line 38: all segments but the last are concatenated,
then a period and the last segment are appended.  Python split always yields
at least one segment, so indexing the last segment never fails; on nonempty
lists `getLastD` agrees with it. -/
def joinParts (parts : List PyStr) : PyStr :=
  parts.dropLast.flatten ++ '.' :: parts.getLastD []

/-- Lines 36-38: if the string holds more than one period, keep only the
last one as decimal separator; otherwise leave the string unchanged. -/
def fixDots (s : PyStr) : PyStr :=
  if countDot s > 1 then joinParts (splitDot s) else s

/-- Whitespace as stripped by `str.strip()` (line 49).  Python strips all
Unicode whitespace; on the strings this pipeline ever strips (only characters
satisfying `isKept` survive line 32) no whitespace character occurs at all, so
the ASCII whitespace test of `Char.isWhitespace` models `str.strip` exactly on
the domain the pipeline ever strips. -/
def wsB (c : Char) : Bool := c.isWhitespace

/-- Python strip (line 49): drop whitespace from both ends. -/
def pyStrip (s : PyStr) : PyStr :=
  ((s.dropWhile wsB).reverse.dropWhile wsB).reverse

/-- The string path of `clean_amount` (lines 30-50): keep only digits, `.`,
`,`, `-`; replace the full-width comma; collapse multiple periods; strip. -/
def clean_amount_str (s : PyStr) : PyStr :=
  pyStrip (fixDots ((s.filter isKept).map replFw))

/-- Function clean_amount (lines 23-50): inputs for which pd.isna is true
(modelled `none`) are returned unchanged (lines 27-28); strings are
cleaned. -/
def clean_amount : Option PyStr → Option PyStr
  | none => none
  | some s => some (clean_amount_str s)

/-- The same pipeline with the full-width-comma substitution step (line 34)
deleted, used to state that the substitution is dead code. -/
def clean_amount_str_nosub (s : PyStr) : PyStr :=
  pyStrip (fixDots (s.filter isKept))

/-- Membership test of Python on strings (the in operator): substring
(contiguous) containment, with the empty needle contained in every string. -/
def containsSub (needle : PyStr) : PyStr → Bool
  | [] => needle.isEmpty
  | c :: rest => List.isPrefixOf needle (c :: rest) || containsSub needle rest

/-- Python lower-casing as used at lines 61 and 65.  `Char.toLower`
lower-cases the ASCII range; the keywords below are ASCII or CJK (CJK has no
case), so this agrees with the Python lower method on every keyword
comparison. -/
def pyLower (s : PyStr) : PyStr := s.map Char.toLower

/-- Textual coercion of a nullable value (the str call): Python renders
`None` as the four-letter text `"None"`; a string stays itself. -/
def pyStrOfCell : Cell → PyStr
  | none => "None".toList
  | some s => s

/-- Keyword list `date_col_keywords` of line 60. -/
def date_col_keywords : List PyStr := ["date".toList, "日期".toList]

/-- Keyword list `amount_col_keywords` of line 64. -/
def amount_col_keywords : List PyStr :=
  ["withdrawals".toList, "deposits".toList, "balance".toList, "amount".toList,
   "支出".toList, "存入".toList, "結餘".toList, "金額".toList]

/-- The per-label date test of line 61:
`any(kw.lower() in str(col).lower() for kw in date_col_keywords)`. -/
def isDateCol (col : Cell) : Bool :=
  date_col_keywords.any (fun kw => containsSub (pyLower kw) (pyLower (pyStrOfCell col)))

/-- The per-label amount test of line 65. -/
def isAmountCol (col : Cell) : Bool :=
  amount_col_keywords.any (fun kw => containsSub (pyLower kw) (pyLower (pyStrOfCell col)))

/-- List date_cols of line 61: the header labels passing the date test, in
header order. -/
def date_cols (header : List Cell) : List Cell := header.filter isDateCol

/-- List amount_cols of line 65. -/
def amount_cols (header : List Cell) : List Cell := header.filter isAmountCol

/-- A pandas DataFrame as built at line 116: an ordered header of column
labels plus data rows aligned positionally to the header. -/
structure DataFrame where
  header : List Cell
  rows : List (List Cell)
deriving DecidableEq, Repr

/-- One cell of the date pass (line 74), `astype(str).str.strip()`: coerce to
text (rendering `None` as `"None"`) and strip surrounding whitespace. -/
def dateCleanCell (c : Cell) : Cell :=
  some (pyStrip (pyStrOfCell c))

/-- Cleaning of one cell under its column label, in the fixed order of the source
(lines 71-81): the date pass runs first, then the amount pass; a label
matching neither leaves the cell untouched. -/
def cleanCell (lbl : Cell) (c : Cell) : Cell :=
  let c1 := if isDateCol lbl then dateCleanCell c else c
  if isAmountCol lbl then clean_amount c1 else c1

/-- Cleaning of one data row: each cell is processed under the header label
at its position; cells beyond the header (impossible for a constructed
DataFrame, where rows conform to the header) are left unchanged. -/
def cleanRowAux : List Cell → List Cell → List Cell
  | _, [] => []
  | [], c :: cs => c :: cleanRowAux [] cs
  | lbl :: ls, c :: cs => cleanCell lbl c :: cleanRowAux ls cs

/-- Function clean_table_data (lines 52-83): classify the header labels and
rewrite the cells of date and amount columns, returning a new table (the
source operates on a copy of the frame). -/
def clean_table_data (df : DataFrame) : DataFrame :=
  { header := df.header, rows := df.rows.map (cleanRowAux df.header) }

/-- A raw table grid as returned by `page.extract_tables()`: rows of nullable
text cells. -/
abbrev RawGrid := List (List Cell)

/-- Modelled from the spec: the `pd.DataFrame(rows, columns=header)` call at
line 116 is external library code (pandas, not part of this repository); per
the StructuredTable invariant of the spec, construction fails exactly when a
data row has a cell count different from that of the header, and such a
failure is caught per-table at lines 115 and 131-133. -/
def mkDataFrame (header : List Cell) (rows : List (List Cell)) : Option DataFrame :=
  if rows.all (fun r => r.length == header.length) then some ⟨header, rows⟩ else none

/-- The per-table body of the aggregation loop (lines 104-136): an empty grid
is skipped (lines 105-108); a grid without data rows (fewer than 2 rows) is
skipped (lines 111 and 134-136); otherwise the first row is the header, a
DataFrame is built (failure caught per-table, lines 115 and 131-133) and the
cleaned table is produced. -/
def processGrid : RawGrid → Option DataFrame
  | [] => none
  | [_] => none
  | header :: r :: rs => (mkDataFrame header (r :: rs)).map clean_table_data

/-- The aggregation over all grids of a document (the `all_tables` list,
lines 90 and 130): grids in page order then within-page order, each
contributing its cleaned table when processing succeeds and nothing when it
is skipped or fails. -/
def processTables (grids : List RawGrid) : List DataFrame :=
  grids.filterMap processGrid

theorem kept_of_mem_filter {c : Char} {s : PyStr} (h : c ∈ s.filter isKept) :
    isKept c = true := (List.mem_filter.mp h).2

theorem replFw_kept {c : Char} (h : isKept c = true) : replFw c = c := by
  unfold replFw
  by_cases hc : c = fwComma
  · subst hc; exact absurd h (by decide)
  · simp [beq_iff_eq, hc]

theorem map_replFw_of_kept : ∀ s : PyStr, (∀ c ∈ s, isKept c = true) → s.map replFw = s
  | [], _ => rfl
  | c :: cs, h => by
    simp only [List.map_cons]
    rw [replFw_kept (h c (List.mem_cons_self c cs)),
      map_replFw_of_kept cs (fun x hx => h x (List.mem_cons_of_mem c hx))]

theorem kept_not_ws {c : Char} (h : isKept c = true) : wsB c = false := by
  cases hw : wsB c
  · rfl
  · exfalso
    have hw2 : c = ' ' ∨ c = '\t' ∨ c = '\r' ∨ c = '\n' := by
      simp only [wsB, Char.isWhitespace, Bool.or_eq_true, decide_eq_true_eq] at hw
      tauto
    rcases hw2 with rfl | rfl | rfl | rfl <;> exact absurd h (by decide)

theorem dropWhile_wsB_eq_self {s : PyStr} (h : ∀ c ∈ s, wsB c = false) :
    s.dropWhile wsB = s := by
  cases s with
  | nil => rfl
  | cons c cs =>
    have hc := h c (List.mem_cons_self c cs)
    simp [List.dropWhile_cons, hc]

theorem pyStrip_eq_self {s : PyStr} (h : ∀ c ∈ s, isKept c = true) :
    pyStrip s = s := by
  have hws : ∀ c ∈ s, wsB c = false := fun c hc => kept_not_ws (h c hc)
  unfold pyStrip
  rw [dropWhile_wsB_eq_self hws,
    dropWhile_wsB_eq_self (fun c hc => hws c (List.mem_reverse.mp hc)),
    List.reverse_reverse]

theorem countDot_append (s t : PyStr) : countDot (s ++ t) = countDot s + countDot t := by
  induction s with
  | nil => simp [countDot]
  | cons c cs ih =>
    simp only [List.cons_append, countDot, List.append_eq, ih]
    omega

theorem splitDot_ne_nil : ∀ s : PyStr, splitDot s ≠ []
  | [] => by simp [splitDot]
  | c :: cs => by
    simp only [splitDot]
    split
    · simp
    · split
      · simp
      · simp

theorem mem_of_mem_splitDot : ∀ {s seg : PyStr}, seg ∈ splitDot s → ∀ {c : Char}, c ∈ seg → c ∈ s := by
  intro s
  induction s with
  | nil =>
    intro seg hseg c hc
    simp only [splitDot, List.mem_singleton] at hseg
    subst hseg
    exact absurd hc (List.not_mem_nil c)
  | cons a cs ih =>
    intro seg hseg c hc
    simp only [splitDot] at hseg
    by_cases ha : (a == '.') = true
    · rw [if_pos ha] at hseg
      rcases List.mem_cons.mp hseg with rfl | hseg2
      · exact absurd hc (List.not_mem_nil c)
      · exact List.mem_cons_of_mem a (ih hseg2 hc)
    · rw [if_neg ha] at hseg
      split at hseg
      · exact absurd (by assumption) (splitDot_ne_nil cs)
      · rename_i h t heq
        rcases List.mem_cons.mp hseg with rfl | hseg2
        · rcases List.mem_cons.mp hc with rfl | hc2
          · exact List.mem_cons_self c cs
          · exact List.mem_cons_of_mem a (ih (heq ▸ List.mem_cons_self h t) hc2)
        · exact List.mem_cons_of_mem a (ih (heq ▸ List.mem_cons_of_mem h hseg2) hc)

theorem countDot_mem_splitDot : ∀ {s seg : PyStr}, seg ∈ splitDot s → countDot seg = 0 := by
  intro s
  induction s with
  | nil =>
    intro seg hseg
    simp only [splitDot, List.mem_singleton] at hseg
    subst hseg; rfl
  | cons a cs ih =>
    intro seg hseg
    simp only [splitDot] at hseg
    by_cases ha : (a == '.') = true
    · rw [if_pos ha] at hseg
      rcases List.mem_cons.mp hseg with rfl | hseg2
      · rfl
      · exact ih hseg2
    · rw [if_neg ha] at hseg
      split at hseg
      · exact absurd (by assumption) (splitDot_ne_nil cs)
      · rename_i h t heq
        rcases List.mem_cons.mp hseg with rfl | hseg2
        · have hmem : h ∈ splitDot cs := heq ▸ List.mem_cons_self h t
          simp only [countDot, if_neg ha, Nat.zero_add]
          exact ih hmem
        · exact ih (heq ▸ List.mem_cons_of_mem h hseg2)

theorem getLastD_mem : ∀ (L : List PyStr), L ≠ [] → ∀ d, L.getLastD d ∈ L := by
  intro L
  induction L with
  | nil => intro h; exact absurd rfl h
  | cons a t ih =>
    intro _ d
    cases t with
    | nil => simp [List.getLastD]
    | cons b t2 =>
      rw [List.getLastD_cons]
      exact List.mem_cons_of_mem a (ih (by simp) a)

theorem countDot_flatten_zero : ∀ {L : List PyStr}, (∀ seg ∈ L, countDot seg = 0) →
    countDot L.flatten = 0 := by
  intro L
  induction L with
  | nil => intro _; rfl
  | cons a t ih =>
    intro h
    rw [List.flatten_cons, countDot_append, h a (List.mem_cons_self a t),
      ih (fun seg hs => h seg (List.mem_cons_of_mem a hs))]

theorem countDot_joinParts (s : PyStr) : countDot (joinParts (splitDot s)) = 1 := by
  unfold joinParts
  rw [countDot_append]
  have h1 : countDot (splitDot s).dropLast.flatten = 0 :=
    countDot_flatten_zero
      (fun seg hs => countDot_mem_splitDot ((List.dropLast_sublist (splitDot s)).subset hs))
  have h2 : countDot ((splitDot s).getLastD []) = 0 :=
    countDot_mem_splitDot (getLastD_mem (splitDot s) (splitDot_ne_nil s) [])
  simp only [countDot, h1, h2]
  rfl

theorem fixDots_of_le_one {t : PyStr} (h : countDot t ≤ 1) : fixDots t = t := by
  unfold fixDots
  rw [if_neg (by omega)]

theorem countDot_fixDots (t : PyStr) : countDot (fixDots t) ≤ 1 := by
  unfold fixDots
  split
  · exact (countDot_joinParts t).le
  · omega

theorem fixDots_kept {t : PyStr} (h : ∀ c ∈ t, isKept c = true) :
    ∀ c ∈ fixDots t, isKept c = true := by
  intro c hc
  unfold fixDots at hc
  split at hc
  · unfold joinParts at hc
    rcases List.mem_append.mp hc with hc1 | hc2
    · rcases List.mem_flatten.mp hc1 with ⟨seg, hs, hcs⟩
      exact h c (mem_of_mem_splitDot ((List.dropLast_sublist (splitDot t)).subset hs) hcs)
    · rcases List.mem_cons.mp hc2 with rfl | hc3
      · decide
      · exact h c (mem_of_mem_splitDot (getLastD_mem (splitDot t) (splitDot_ne_nil t) []) hc3)
  · exact h c hc

theorem filter_kept_eq_self {t : PyStr} (h : ∀ c ∈ t, isKept c = true) :
    t.filter isKept = t := List.filter_eq_self.mpr h

theorem clean_amount_str_eq (s : PyStr) :
    clean_amount_str s = fixDots (s.filter isKept) := by
  unfold clean_amount_str
  rw [map_replFw_of_kept _ (fun c hc => kept_of_mem_filter hc)]
  exact pyStrip_eq_self (fixDots_kept (fun c hc => kept_of_mem_filter hc))

theorem clean_amount_str_kept (s : PyStr) :
    ∀ c ∈ clean_amount_str s, isKept c = true := by
  rw [clean_amount_str_eq]
  exact fixDots_kept (fun c hc => kept_of_mem_filter hc)

theorem countDot_clean_amount_str (s : PyStr) : countDot (clean_amount_str s) ≤ 1 := by
  rw [clean_amount_str_eq]
  exact countDot_fixDots _

theorem clean_amount_str_fixed {t : PyStr} (hk : ∀ c ∈ t, isKept c = true)
    (hd : countDot t ≤ 1) : clean_amount_str t = t := by
  rw [clean_amount_str_eq, filter_kept_eq_self hk, fixDots_of_le_one hd]

/-- C1: `clean_amount` is idempotent on strings: re-running the normalizer on
an already-clean output is a no-op. -/
theorem clean_amount_idempotent (s : PyStr) :
    clean_amount (clean_amount (some s)) = clean_amount (some s) := by
  show some (clean_amount_str (clean_amount_str s)) = some (clean_amount_str s)
  rw [clean_amount_str_fixed (clean_amount_str_kept s) (countDot_clean_amount_str s)]

/-- C2: when the stripped form holds more than one period, only the final
period is kept as decimal separator: the result is the concatenation of all
segments before the last period (periods removed) followed by a period and
the final segment. -/
theorem clean_amount_multi_dot (s : PyStr)
    (h : countDot (s.filter isKept) > 1) :
    clean_amount_str s =
      (splitDot (s.filter isKept)).dropLast.flatten
        ++ '.' :: (splitDot (s.filter isKept)).getLastD [] := by
  rw [clean_amount_str_eq]
  unfold fixDots
  rw [if_pos h]
  rfl

theorem clean_amount_multi_dot_witness :
    countDot (("1.234.56".toList).filter isKept) > 1 ∧
      clean_amount_str "1.234.56".toList = "1234.56".toList := by
  refine ⟨by decide, ?_⟩
  rw [clean_amount_multi_dot ("1.234.56".toList) (by decide)]
  rfl

/-- C3: the full-width comma substitution of line 34 is dead code: the string
it is applied to never holds U+FF0C (the strip of line 32 removed it), and
the pipeline equals the identical pipeline with the substitution deleted. -/
theorem fullwidth_comma_dead (s : PyStr) :
    fwComma ∉ s.filter isKept ∧ clean_amount_str s = clean_amount_str_nosub s := by
  constructor
  · intro hmem
    exact absurd (kept_of_mem_filter hmem) (by decide)
  · unfold clean_amount_str clean_amount_str_nosub
    rw [map_replFw_of_kept _ (fun c hc => kept_of_mem_filter hc)]

/-- C4: on any string input, the normalizer output holds only ASCII digits,
periods, commas and minus signs; stripping it again is a no-op (it carries no
surrounding whitespace); and the documented example holds. -/
theorem clean_amount_charset (s : PyStr) :
    clean_amount (some s) = some (clean_amount_str s)
    ∧ ((clean_amount_str s).all fun c => c.isDigit || c == '.' || c == ',' || c == '-') = true
    ∧ pyStrip (clean_amount_str s) = clean_amount_str s
    ∧ clean_amount_str "  12.50  ".toList = "12.50".toList := by
  refine ⟨rfl, ?_, pyStrip_eq_self (clean_amount_str_kept s), by decide⟩
  rw [List.all_eq_true]
  intro c hc
  have h := clean_amount_str_kept s c hc
  simp only [isKept, Bool.or_eq_true, Bool.and_eq_true, decide_eq_true_eq, beq_iff_eq] at h
  simp only [Char.isDigit, Bool.or_eq_true, Bool.and_eq_true, decide_eq_true_eq, beq_iff_eq]
  tauto

/-- C5: an absent (null-equivalent) input is returned unchanged and is not
coerced to the empty string. -/
theorem clean_amount_absence : clean_amount none = none ∧ clean_amount none ≠ some [] :=
  ⟨rfl, by decide⟩

/-- C6: a header label is marked a date column exactly when its lower-cased
string form holds "date" or "日期" as a substring, and independently an
amount column exactly when it holds one of the eight amount keywords; the two
checks are independent (a label can satisfy both); on the documented example
header, "Date" is the only date column and "Withdrawals", "Balance" the
amount columns. -/
theorem classify_columns_spec :
    (∀ lbl : Cell, isDateCol lbl = true ↔
      (containsSub "date".toList (pyLower (pyStrOfCell lbl)) = true ∨
       containsSub "日期".toList (pyLower (pyStrOfCell lbl)) = true))
    ∧ (∀ lbl : Cell, isAmountCol lbl = true ↔
      (containsSub "withdrawals".toList (pyLower (pyStrOfCell lbl)) = true ∨
       containsSub "deposits".toList (pyLower (pyStrOfCell lbl)) = true ∨
       containsSub "balance".toList (pyLower (pyStrOfCell lbl)) = true ∨
       containsSub "amount".toList (pyLower (pyStrOfCell lbl)) = true ∨
       containsSub "支出".toList (pyLower (pyStrOfCell lbl)) = true ∨
       containsSub "存入".toList (pyLower (pyStrOfCell lbl)) = true ∨
       containsSub "結餘".toList (pyLower (pyStrOfCell lbl)) = true ∨
       containsSub "金額".toList (pyLower (pyStrOfCell lbl)) = true))
    ∧ date_cols [some "Date".toList, some "Withdrawals".toList, some "Balance".toList]
        = [some "Date".toList]
    ∧ amount_cols [some "Date".toList, some "Withdrawals".toList, some "Balance".toList]
        = [some "Withdrawals".toList, some "Balance".toList]
    ∧ isDateCol (some "Date Amount".toList) = true
    ∧ isAmountCol (some "Date Amount".toList) = true := by
  refine ⟨?_, ?_, by decide, by decide, by decide, by decide⟩
  · intro lbl
    unfold isDateCol
    simp only [date_col_keywords, List.any_cons, List.any_nil, Bool.or_false,
      Bool.or_eq_true]
    rw [(by decide : pyLower "date".toList = "date".toList),
      (by decide : pyLower "日期".toList = "日期".toList)]
  · intro lbl
    unfold isAmountCol
    simp only [amount_col_keywords, List.any_cons, List.any_nil, Bool.or_false,
      Bool.or_eq_true]
    rw [(by decide : pyLower "withdrawals".toList = "withdrawals".toList),
      (by decide : pyLower "deposits".toList = "deposits".toList),
      (by decide : pyLower "balance".toList = "balance".toList),
      (by decide : pyLower "amount".toList = "amount".toList),
      (by decide : pyLower "支出".toList = "支出".toList),
      (by decide : pyLower "存入".toList = "存入".toList),
      (by decide : pyLower "結餘".toList = "結餘".toList),
      (by decide : pyLower "金額".toList = "金額".toList)]

/-- C7: a grid with fewer than 2 rows (empty, or header-only) is skipped and
contributes nothing to the table list of the document; the remaining grids are
unaffected. -/
theorem short_grid_skipped (gs1 gs2 : List RawGrid) (g : RawGrid) (h : g.length < 2) :
    processGrid g = none ∧
      processTables (gs1 ++ g :: gs2) = processTables gs1 ++ processTables gs2 := by
  have hp : processGrid g = none := by
    cases g with
    | nil => rfl
    | cons a t =>
      cases t with
      | nil => rfl
      | cons b t2 =>
        exfalso
        simp only [List.length_cons] at h
        omega
  refine ⟨hp, ?_⟩
  unfold processTables
  rw [List.filterMap_append]
  simp [List.filterMap_cons, hp]

theorem short_grid_skipped_witness :
    ([[some ['H']]] : RawGrid).length < 2 ∧
      (processGrid [[some ['H']]] = none ∧
        processTables ([[[some ['A']], [some ['1']]]] ++ [[some ['H']]] :: []) =
          processTables [[[some ['A']], [some ['1']]]] ++ processTables []) :=
  ⟨by decide,
    short_grid_skipped [[[some ['A']], [some ['1']]]] [] [[some ['H']]] (by decide)⟩

/-- C8: a grid whose DataFrame construction fails (e.g. a data row whose cell
count differs from that of the header) is excluded, and every sibling grid in the
document is still processed and retained: one malformed table never aborts
the document. -/
theorem malformed_table_isolated (gs1 gs2 : List RawGrid) (hdr r : List Cell)
    (rs : List (List Cell)) (h : mkDataFrame hdr (r :: rs) = none) :
    processGrid (hdr :: r :: rs) = none ∧
      processTables (gs1 ++ (hdr :: r :: rs) :: gs2) =
        processTables gs1 ++ processTables gs2 := by
  have hp : processGrid (hdr :: r :: rs) = none := by
    show Option.map clean_table_data (mkDataFrame hdr (r :: rs)) = none
    rw [h]
    rfl
  refine ⟨hp, ?_⟩
  unfold processTables
  rw [List.filterMap_append]
  simp [List.filterMap_cons, hp]

theorem malformed_table_isolated_witness :
    mkDataFrame [some ['A'], some ['B']] [[some ['1']]] = none ∧
      (processGrid ([some ['A'], some ['B']] :: [some ['1']] :: []) = none ∧
        processTables ([[[some ['C']], [some ['2']]]] ++
            ([some ['A'], some ['B']] :: [some ['1']] :: []) :: [[[some ['D']], [some ['3']]]]) =
          processTables [[[some ['C']], [some ['2']]]] ++
            processTables [[[some ['D']], [some ['3']]]]) :=
  ⟨by decide,
    malformed_table_isolated [[[some ['C']], [some ['2']]]] [[[some ['D']], [some ['3']]]]
      [some ['A'], some ['B']] [some ['1']] [] (by decide)⟩

theorem cleanRowAux_length (ls cs : List Cell) : (cleanRowAux ls cs).length = cs.length := by
  induction cs generalizing ls with
  | nil => cases ls <;> rfl
  | cons c cs2 ih =>
    cases ls with
    | nil => simp only [cleanRowAux, List.length_cons, ih]
    | cons lbl ls2 => simp only [cleanRowAux, List.length_cons, ih]

theorem cleanRowAux_getElem (ls cs : List Cell) (j : Nat) (lbl : Cell)
    (h : ls[j]? = some lbl) :
    (cleanRowAux ls cs)[j]? = cs[j]?.map (cleanCell lbl) := by
  induction j generalizing ls cs with
  | zero =>
    cases ls with
    | nil => simp at h
    | cons l ls2 =>
      simp only [List.getElem?_cons_zero, Option.some_inj] at h
      subst h
      cases cs with
      | nil => cases ls2 <;> rfl
      | cons c cs2 => simp [cleanRowAux]
  | succ n ih =>
    cases ls with
    | nil => simp at h
    | cons l ls2 =>
      simp only [List.getElem?_cons_succ] at h
      cases cs with
      | nil => simp [cleanRowAux]
      | cons c cs2 =>
        simp only [cleanRowAux, List.getElem?_cons_succ]
        exact ih ls2 cs2 h

/-- C9: the table cleaner is frame-preserving: a cell under a column whose
label is classified neither date nor amount is returned unchanged (the
source never writes to such a column; it also operates on `df.copy()`, so in
this pure model the input table itself is untouched by construction). -/
theorem clean_table_frame (hdr : List Cell) (rows : List (List Cell)) (i j : Nat)
    (lbl : Cell) (h1 : hdr[j]? = some lbl) (h2 : isDateCol lbl = false)
    (h3 : isAmountCol lbl = false) :
    ((clean_table_data ⟨hdr, rows⟩).rows[i]?.bind fun r => r[j]?) =
      (rows[i]?.bind fun r => r[j]?) := by
  have hc : ∀ c, cleanCell lbl c = c := by
    intro c
    unfold cleanCell
    simp [h2, h3]
  show ((rows.map (cleanRowAux hdr))[i]?.bind fun r => r[j]?) = _
  rw [List.getElem?_map]
  cases hri : rows[i]? with
  | none => rfl
  | some r =>
    show (cleanRowAux hdr r)[j]? = r[j]?
    rw [cleanRowAux_getElem hdr r j lbl h1]
    cases r[j]? with
    | none => rfl
    | some c => simp [hc c]

theorem clean_table_frame_witness :
    ([some ['X']] : List Cell)[0]? = some (some ['X']) ∧
      isDateCol (some ['X']) = false ∧ isAmountCol (some ['X']) = false ∧
      ((clean_table_data ⟨[some ['X']], [[some ['$']]]⟩).rows[0]?.bind fun r => r[0]?) =
        (([[some ['$']]] : List (List Cell))[0]?.bind fun r => r[0]?) :=
  ⟨rfl, by decide, by decide,
    clean_table_frame [some ['X']] [[some ['$']]] 0 0 (some ['X']) rfl (by decide) (by decide)⟩

/-- C10: the table cleaner preserves the table shape: the header is
returned unchanged, the number of data rows is unchanged, and the row at any
index keeps its cell count; cleaning only rewrites cell values. -/
theorem clean_table_shape (hdr : List Cell) (rows : List (List Cell)) :
    (clean_table_data ⟨hdr, rows⟩).header = hdr
    ∧ (clean_table_data ⟨hdr, rows⟩).rows.length = rows.length
    ∧ ∀ i : Nat, ((clean_table_data ⟨hdr, rows⟩).rows[i]?.map List.length) =
        (rows[i]?.map List.length) := by
  refine ⟨rfl, by simp [clean_table_data], ?_⟩
  intro i
  show ((rows.map (cleanRowAux hdr))[i]?.map List.length) = _
  rw [List.getElem?_map]
  cases hri : rows[i]? with
  | none => rfl
  | some r => simp [cleanRowAux_length]
